import Mathlib

/-!
Verification of the content-conversion pipeline of the `mcp_scraper` repository.

The embedding below models, over `List Char` / `String`:

* the code-fence language classifier of `scrapeToMarkdown`
  (`src/index.ts:346-347`): two global regex substitutions applied in a
  fixed order (JavaScript first, Python second);
* the script-stripping sanitization of `htmlToMarkdown`
  (`src/data_processing.ts:11`): the global case-insensitive regex
  `<script\b[^<]*(?:(?!<\/script>)<[^<]*)*<\/script>` replaced by the
  empty string;
* the error path of `scrapeToMarkdown` and of the `scrape-to-markdown`
  tool handler (`src/index.ts:338-340, 350-352, 365-384`);
* the Markdown serializer and the normalizer, which the repository
  delegates to the external `turndown` dependency (absent from `src/`);
  those parts are modelled from the specification, as flagged in their
  doc comments, and cross-checked against the expectations recorded in
  `src/data_processing.test.ts`.

A JavaScript global regex replace scans the subject left to right: at each
position it either matches (the replacement is emitted and scanning resumes
at the end of the match) or it advances by one character.  The generic
scanner `scanF` below implements exactly that loop; the fuel argument is
set to the length of the subject, which suffices because every step
consumes at least one character.
-/

/-- The backtick character, code point 96 (written via `Char.ofNat` so that
fence patterns can be stated without a backtick character literal). -/
def btick : Char := Char.ofNat 96

/-- One step of a global regex replace: given the current suffix of the
subject, return `some (replacement, remainder)` when the regex matches at
this position, `none` otherwise. -/
def ScanStep : Type := List Char → Option (List Char × List Char)

/-- Generic left-to-right global replace loop: on a match, emit the
replacement and resume after the match; otherwise copy one character and
advance.  Structural in the fuel argument. -/
def scanF (step : ScanStep) : Nat → List Char → List Char
  | 0, l => l
  | _ + 1, [] => []
  | fuel + 1, c :: cs =>
    match step (c :: cs) with
    | some (out, rest) => out ++ scanF step fuel rest
    | none => c :: scanF step fuel cs

/-- Run a global replace over a whole subject.  Since every step of `scanF`
consumes at least one character of the subject, `l.length` fuel is enough. -/
def replaceScan (step : ScanStep) (l : List Char) : List Char :=
  scanF step l.length l

/-- The JavaScript keyword alternation of the first substitution of
`scrapeToMarkdown` (src/index.ts:346). -/
def jsKeywords : List (List Char) :=
  ["class", "function", "import", "const", "let", "var", "if", "for", "while"].map String.data

/-- The Python keyword alternation of the second substitution of
`scrapeToMarkdown` (src/index.ts:347). -/
def pyKeywords : List (List Char) :=
  ["def", "class", "import", "from", "with", "if", "for", "while"].map String.data

/-- Does any of the given keyword alternatives occur as a prefix of `cs`?
(The keyword sets are prefix-free, so alternation order is irrelevant.) -/
def startsWithAny (ks : List (List Char)) (cs : List Char) : Bool :=
  ks.any fun k => k.isPrefixOf cs

/-- The JavaScript regular-expression class `\s` (ECMAScript WhiteSpace and
LineTerminator code points), used for the `(\s+)` group of the Python rule
(src/index.ts:347). -/
def isWsChar (c : Char) : Bool :=
  c == ' ' || c == '\t' || c == '\n' || c == '\x0b' || c == '\x0c' || c == '\r' ||
  c == '\u00A0' || c == '\u1680' || c == '\u2000' || c == '\u2001' || c == '\u2002' ||
  c == '\u2003' || c == '\u2004' || c == '\u2005' || c == '\u2006' || c == '\u2007' ||
  c == '\u2008' || c == '\u2009' || c == '\u200A' || c == '\u2028' || c == '\u2029' ||
  c == '\u202F' || c == '\u205F' || c == '\u3000' || c == '\uFEFF'

/-- Is the first character of the list a `\s` character? -/
def headIsWs : List Char → Bool
  | [] => false
  | c :: _ => isWsChar c

/-- Does `cs` start with a Python keyword followed by at least one `\s`
character, as required by `(def|class|import|from|with|if|for|while)(\s+)`? -/
def startsWithPyKwWs (cs : List Char) : Bool :=
  pyKeywords.any fun k => k.isPrefixOf cs && headIsWs (cs.drop k.length)

/-- Match step of the first substitution of `scrapeToMarkdown`
(src/index.ts:346): `markdown.replace(/```\n(class|function|import|const|let|var|if|for|while)/g, '```javascript\n$1')`.
The match consumes the fence, the newline and the keyword; the replacement
re-emits all of it with the `javascript` tag inserted, so the remainder can
keep the keyword (keywords contain no backtick, hence no new match can
start inside them). -/
def jsStep : ScanStep
  | c :: c2 :: c3 :: c4 :: rest =>
    if c = btick ∧ c2 = btick ∧ c3 = btick ∧ c4 = '\n' ∧ startsWithAny jsKeywords rest then
      some ("```javascript\n".data, rest)
    else none
  | _ => none

/-- Match step of the second substitution of `scrapeToMarkdown`
(src/index.ts:347): `markdown.replace(/```\n(def|class|import|from|with|if|for|while)(\s+)/g, '```python\n$1$2')`.
As with `jsStep`, the replacement re-emits the matched keyword and
whitespace, so the remainder keeps them (neither contains a backtick). -/
def pyStep : ScanStep
  | c :: c2 :: c3 :: c4 :: rest =>
    if c = btick ∧ c2 = btick ∧ c3 = btick ∧ c4 = '\n' ∧ startsWithPyKwWs rest then
      some ("```python\n".data, rest)
    else none
  | _ => none

/-- First substitution pass (JavaScript rule) over the serialized Markdown. -/
def jsPass (l : List Char) : List Char := replaceScan jsStep l

/-- Second substitution pass (Python rule), applied to the output of the
JavaScript pass. -/
def pyPass (l : List Char) : List Char := replaceScan pyStep l

/-- The code-fence language classifier of `scrapeToMarkdown`
(src/index.ts:345-347): JavaScript substitution first, then Python. -/
def classifyFences (md : String) : String := String.mk (pyPass (jsPass md.data))

/-- The JavaScript regular-expression class `\w` (`[A-Za-z0-9_]`), used for
the word boundary `\b` after `<script`. -/
def isWordChar (c : Char) : Bool := c.isAlphanum || c == '_'

/-- Case-insensitive literal `<script` as (lower, upper) character pairs:
under the `/i` flag each ASCII letter of the pattern matches either case,
and non-letters match themselves. -/
def scriptOpenP : List (Char × Char) :=
  [('<', '<'), ('s', 'S'), ('c', 'C'), ('r', 'R'), ('i', 'I'), ('p', 'P'), ('t', 'T')]

/-- Case-insensitive literal `</script>` as (lower, upper) character pairs. -/
def scriptCloseP : List (Char × Char) :=
  [('<', '<'), ('/', '/'), ('s', 'S'), ('c', 'C'), ('r', 'R'), ('i', 'I'), ('p', 'P'),
   ('t', 'T'), ('>', '>')]

/-- Does `cs` start with the given case-insensitive literal? -/
def ciStarts : List (Char × Char) → List Char → Bool
  | [], _ => true
  | _ :: _, [] => false
  | (a, b) :: ps, c :: cs => (c == a || c == b) && ciStarts ps cs

/-- The word boundary `\b` after `<script`: the preceding `t` is a word
character, so the boundary holds iff the next character is not a word
character (or the input ends). -/
def boundaryAfter : List Char → Bool
  | [] => true
  | c :: _ => !(isWordChar c)

/-- Scan for the first case-insensitive occurrence of `</script>` and
return the remainder after it; `none` when there is no such occurrence.
This realizes `[^<]*(?:(?!<\/script>)<[^<]*)*<\/script>`: between the
opener and the first closer every character is consumable (non-`<`
characters by `[^<]*`, non-closer `<` by the guarded loop), so the match
extends exactly to the first closer, deterministically. -/
def afterCloser : List Char → Option (List Char)
  | [] => none
  | c :: cs =>
    if ciStarts scriptCloseP (c :: cs) then some ((c :: cs).drop 9)
    else afterCloser cs

/-- Match step of the script-stripping replace of `htmlToMarkdown`
(src/data_processing.ts:11):
`html.replace(/<script\b[^<]*(?:(?!<\/script>)<[^<]*)*<\/script>/gi, '')`.
A match requires the case-insensitive opener `<script`, a word boundary,
and a later case-insensitive closer `</script>`; the whole block is
replaced by the empty string. -/
def scriptStep : ScanStep
  | l =>
    if ciStarts scriptOpenP l && boundaryAfter (l.drop 7) then
      match afterCloser (l.drop 7) with
      | some r => some ([], r)
      | none => none
    else none

/-- The sanitization step of `htmlToMarkdown` (src/data_processing.ts:11):
remove every matched `<script ...>...</script>` block. -/
def stripScripts (l : List Char) : List Char := replaceScan scriptStep l

/-- String-level wrapper for `stripScripts` (the `cleanHtml` value of
src/data_processing.ts:11). -/
def stripScriptsS (s : String) : String := String.mk (stripScripts s.data)

mutual
/-- Modelled from the spec: the `DocumentNode` data model (§3) — a tagged
variant over Element(tag, ordered attributes, children), Text(content) and
Comment.  The repository itself delegates tree building to the external
`jsdom`/`turndown` dependencies, which are not under `src/`. -/
inductive DocumentNode where
  | element : String → List (String × String) → NodeList → DocumentNode
  | text : String → DocumentNode
  | comment : DocumentNode
/-- Modelled from the spec: an ordered list of child `DocumentNode`s, each
owned by its parent (§3).  A bespoke list type keeps the serializer's
recursion structural. -/
inductive NodeList where
  | nil : NodeList
  | cons : DocumentNode → NodeList → NodeList
end

/-- Convert an ordinary list of nodes into a `NodeList`. -/
def toNodeList : List DocumentNode → NodeList
  | [] => NodeList.nil
  | n :: rest => NodeList.cons n (toNodeList rest)

mutual
/-- Modelled from the spec: the visible text content of a node (§4.3 uses
it for headings and table cells); comments contribute nothing. -/
def nodeText : DocumentNode → String
  | DocumentNode.text s => s
  | DocumentNode.comment => ""
  | DocumentNode.element _ _ children => listText children
/-- Modelled from the spec: concatenated text content of a node list. -/
def listText : NodeList → String
  | NodeList.nil => ""
  | NodeList.cons n NodeList.nil => nodeText n
  | NodeList.cons n rest => nodeText n ++ listText rest
end

/-- Modelled from the spec: tags classified as block-level (§4.3); block
fragments are separated from their siblings by a blank line. -/
def blockTags : List String :=
  ["h1", "h2", "h3", "h4", "h5", "h6", "p", "div", "section", "article", "header",
   "footer", "nav", "main", "ul", "ol", "table", "thead", "tbody", "tr", "td", "th",
   "pre", "blockquote"]

/-- Is this node a block-level element? -/
def isBlockNode : DocumentNode → Bool
  | DocumentNode.element tag _ _ => blockTags.contains tag
  | _ => false

/-- Is the first node of the list (if any) block-level? -/
def firstIsBlock : NodeList → Bool
  | NodeList.nil => false
  | NodeList.cons m _ => isBlockNode m

/-- Modelled from the spec: the separator inserted between a serialized
node and the rest of its siblings — a blank line when either side is a
block, nothing when both are inline (§4.3). -/
def seqSep (n : DocumentNode) (rest : NodeList) : String :=
  if isBlockNode n || firstIsBlock rest then "\n\n" else ""

/-- A setext underline: `n` copies of the underline character. -/
def underline (n : Nat) (c : Char) : String := String.mk (List.replicate n c)

/-- Look up an attribute value by name in an ordered attribute mapping. -/
def lookupAttr (key : String) : List (String × String) → Option String
  | [] => none
  | (k, v) :: rest => if k = key then some v else lookupAttr key rest

mutual
/-- Modelled from the spec: the Markdown Serializer (§4.3), realized in the
repository by the external `turndown` dependency (configured in
src/data_processing.ts:13-16 with `codeBlockStyle: 'fenced'` and
`emDelimiter: '_'`), which is not under `src/`.  Per-tag transform table:
setext headings for h1/h2, `_text_` for em, `**text**` for strong,
`[text](href)` for links, fenced code for pre, `*   item` lines for lists,
flattened cells for tables, and generic recursion for everything else.
The expectations of src/data_processing.test.ts pin the same behavior. -/
def serializeNode : DocumentNode → String
  | DocumentNode.text s => s
  | DocumentNode.comment => ""
  | DocumentNode.element tag attrs children =>
    if tag = "h1" then listText children ++ "\n" ++ underline (listText children).length '='
    else if tag = "h2" then listText children ++ "\n" ++ underline (listText children).length '-'
    else if tag = "em" then "_" ++ serializeSeq children ++ "_"
    else if tag = "strong" then "**" ++ serializeSeq children ++ "**"
    else if tag = "a" then
      match lookupAttr "href" attrs with
      | some h => "[" ++ serializeSeq children ++ "](" ++ h ++ ")"
      | none => serializeSeq children
    else if tag = "pre" then "```\n" ++ listText children ++ "\n```"
    else if tag = "ul" ∨ tag = "ol" then serializeItems children
    else if tag = "li" then "*   " ++ serializeSeq children
    else if tag = "td" ∨ tag = "th" then listText children
    else serializeSeq children
/-- Modelled from the spec: serialize a sibling sequence, inserting the
block separator between consecutive fragments (§4.3). -/
def serializeSeq : NodeList → String
  | NodeList.nil => ""
  | NodeList.cons n NodeList.nil => serializeNode n
  | NodeList.cons n rest => serializeNode n ++ seqSep n rest ++ serializeSeq rest
/-- Modelled from the spec: serialize list items, one `*   item` per line
(§4.3); src/data_processing.test.ts:34-37 pins the single-`\n` join. -/
def serializeItems : NodeList → String
  | NodeList.nil => ""
  | NodeList.cons n NodeList.nil => serializeNode n
  | NodeList.cons n rest => serializeNode n ++ "\n" ++ serializeItems rest
end

/-- A table cell holding plain text. -/
def mkCell (s : String) : DocumentNode :=
  DocumentNode.element "td" [] (NodeList.cons (DocumentNode.text s) NodeList.nil)

/-- A table row of plain-text cells. -/
def mkRow (r : List String) : DocumentNode :=
  DocumentNode.element "tr" [] (toNodeList (r.map mkCell))

/-- A table of plain-text cells. -/
def mkTable (rows : List (List String)) : DocumentNode :=
  DocumentNode.element "table" [] (toNodeList (rows.map mkRow))

/-- Join a list of fragments with a separator. -/
def joinSep (sep : String) : List String → String
  | [] => ""
  | [x] => x
  | x :: rest => x ++ sep ++ joinSep sep rest

/-- Modelled from the spec: the DOM Builder collaborator (§6) parses HTML
text into a `DocumentNode` tree; on input containing no tag delimiter it
yields a single text node (the empty string yields an empty text node).
Only that fragment of the collaborator is needed here. -/
def parsePlain (s : String) : DocumentNode := DocumentNode.text s

/-- The `htmlToMarkdown` pipeline (src/data_processing.ts:9-19) restricted
to tag-free input: strip script blocks, parse, serialize. -/
def htmlToMarkdownPlain (s : String) : String :=
  serializeNode (parsePlain (stripScriptsS s))

/-- The body of `scrapeToMarkdown` after content extraction
(src/index.ts:335-352): Readability's result is modelled as
`Option String` (the article content, `none` when `reader.parse()`
returned no article).  A missing article, or — by JavaScript falsiness of
`article.content` — an empty content string, throws
`Failed to parse article content`, which the surrounding catch rethrows as
`Scraping error: ...`; otherwise the content is converted and the
classifier substitutions are applied. -/
def scrapeToMarkdownE (convert : String → String) (article : Option String) :
    Except String String :=
  match article with
  | none => Except.error "Scraping error: Failed to parse article content"
  | some content =>
    if content = "" then Except.error "Scraping error: Failed to parse article content"
    else Except.ok (classifyFences (convert content))

/-- The `scrape-to-markdown` tool handler (src/index.ts:365-384): an `ok`
result is returned as the tool text, an error is returned as
`Error: <message>` with the `isError` flag set. -/
def toolHandlerModel : Except String String → String × Bool
  | Except.ok md => (md, false)
  | Except.error m => ("Error: " ++ m, true)

/-- One invocation of the tool handler: it calls `scrapeToMarkdown`
exactly once (src/index.ts:368-383 contain no loop and no retry); the
final component records the number of scrape attempts performed. -/
def runScrapeTool (convert : String → String) (article : Option String) :
    (String × Bool) × Nat :=
  (toolHandlerModel (scrapeToMarkdownE convert article), 1)

/-- Modelled from the spec: the Normalizer (§4.5) collapses every run of
three or more consecutive newlines down to exactly two.  No such step
appears in `src/` — in the repository it is realized inside the external
`turndown` dependency's output post-processing. -/
def collapseNl : List Char → List Char
  | [] => []
  | c :: cs =>
    match c, cs with
    | '\n', '\n' :: '\n' :: _ => collapseNl cs
    | _, _ => c :: collapseNl cs

/-- Modelled from the spec: trim leading and trailing whitespace (§4.5). -/
def trimWs (l : List Char) : List Char :=
  List.rdropWhile isWsChar (List.dropWhile isWsChar l)

/-- Modelled from the spec: the Normalizer (§4.5) — collapse newline runs,
then trim. -/
def normalizeMd (l : List Char) : List Char := trimWs (collapseNl l)

/-- String-level Normalizer. -/
def normalizeMdS (s : String) : String := String.mk (normalizeMd s.data)

/-- Three consecutive newlines, the pattern the Normalizer eliminates. -/
def tripleNl : List Char := ['\n', '\n', '\n']

/-- Does `needle` occur as a contiguous substring of `hay`? -/
def containsSub (needle : List Char) : List Char → Bool
  | [] => needle.isEmpty
  | c :: cs => needle.isPrefixOf (c :: cs) || containsSub needle cs

/-! ### Generic lemmas about the global-replace scanner -/

/-- The result of `scanF` does not depend on the fuel, as long as the fuel
is at least the length of the subject — which matching steps may only
shrink. -/
theorem scanF_irrel (step : ScanStep)
    (hstep : ∀ l out rest, step l = some (out, rest) → rest.length < l.length) :
    ∀ (n m : Nat) (l : List Char), l.length ≤ n → l.length ≤ m →
      scanF step n l = scanF step m l := by
  intro n
  induction n with
  | zero =>
    intro m l hn _
    have : l = [] := List.eq_nil_of_length_eq_zero (Nat.le_zero.mp hn)
    subst this
    cases m <;> rfl
  | succ n ih =>
    intro m l hn hm
    match l with
    | [] => cases m <;> rfl
    | c :: cs =>
      match m, hm with
      | m + 1, hm =>
        match hs : step (c :: cs) with
        | some (out, rest) =>
          have hlt := hstep _ _ _ hs
          simp only [scanF, hs]
          simp only [List.length_cons] at hn hm hlt
          rw [ih m rest (by omega) (by omega)]
        | none =>
          simp only [scanF, hs]
          simp only [List.length_cons] at hn hm
          rw [ih m cs (by omega) (by omega)]

/-- A non-matching position copies one character and the scan continues. -/
theorem replaceScan_cons_none (step : ScanStep) (c : Char) (cs : List Char)
    (h : step (c :: cs) = none) :
    replaceScan step (c :: cs) = c :: replaceScan step cs := by
  show scanF step (cs.length + 1) (c :: cs) = c :: scanF step cs.length cs
  simp only [scanF, h]

/-- A matching position emits the replacement and the scan resumes at the
remainder. -/
theorem replaceScan_cons_some (step : ScanStep)
    (hstep : ∀ l out rest, step l = some (out, rest) → rest.length < l.length)
    (c : Char) (cs out rest : List Char) (h : step (c :: cs) = some (out, rest)) :
    replaceScan step (c :: cs) = out ++ replaceScan step rest := by
  show scanF step (cs.length + 1) (c :: cs) = out ++ replaceScan step rest
  simp only [scanF, h]
  have hlt := hstep _ _ _ h
  simp only [List.length_cons] at hlt
  rw [scanF_irrel step hstep cs.length rest.length rest (by omega) le_rfl]
  rfl

/-- A run of positions at which the step never matches is copied verbatim. -/
theorem replaceScan_append_none (step : ScanStep) (p t : List Char)
    (hp : ∀ c ∈ p, ∀ cs, step (c :: cs) = none) :
    replaceScan step (p ++ t) = p ++ replaceScan step t := by
  induction p with
  | nil => simp
  | cons c p ih =>
    simp only [List.cons_append]
    rw [replaceScan_cons_none step c _ (hp c (by simp) _)]
    rw [ih (fun d hd cs => hp d (by simp [hd]) cs)]

/-! ### The two classifier substitutions -/

/-- A position whose first character is not a backtick never matches the
JavaScript rule. -/
theorem jsStep_none_ne (c : Char) (cs : List Char) (h : c ≠ btick) :
    jsStep (c :: cs) = none := by
  match cs with
  | [] => rfl
  | [a] => rfl
  | [a, b] => rfl
  | a :: b :: d :: t =>
    simp only [jsStep]
    rw [if_neg]
    intro hc
    exact h hc.1

/-- A position whose first character is not a backtick never matches the
Python rule. -/
theorem pyStep_none_ne (c : Char) (cs : List Char) (h : c ≠ btick) :
    pyStep (c :: cs) = none := by
  match cs with
  | [] => rfl
  | [a] => rfl
  | [a, b] => rfl
  | a :: b :: d :: t =>
    simp only [pyStep]
    rw [if_neg]
    intro hc
    exact h hc.1

/-- A position not starting with three backticks and a newline never
matches the Python rule. -/
theorem pyStep_none_no4 (a b c d : Char) (cs : List Char)
    (h : ¬(a = btick ∧ b = btick ∧ c = btick ∧ d = '\n')) :
    pyStep (a :: b :: c :: d :: cs) = none := by
  simp only [pyStep]
  rw [if_neg]
  intro hc
  exact h ⟨hc.1, hc.2.1, hc.2.2.1, hc.2.2.2.1⟩

/-- A position not starting with three backticks and a newline never
matches the JavaScript rule. -/
theorem jsStep_none_no4 (a b c d : Char) (cs : List Char)
    (h : ¬(a = btick ∧ b = btick ∧ c = btick ∧ d = '\n')) :
    jsStep (a :: b :: c :: d :: cs) = none := by
  simp only [jsStep]
  rw [if_neg]
  intro hc
  exact h ⟨hc.1, hc.2.1, hc.2.2.1, hc.2.2.2.1⟩

/-- A JavaScript-rule match consumes at least the fence and the newline. -/
theorem jsStep_shrink : ∀ l out rest, jsStep l = some (out, rest) → rest.length < l.length := by
  intro l out rest h
  match l with
  | [] => exact Option.noConfusion h
  | [a] => exact Option.noConfusion h
  | [a, b] => exact Option.noConfusion h
  | [a, b, c] => exact Option.noConfusion h
  | a :: b :: c :: d :: t =>
    simp only [jsStep] at h
    split at h
    · injection h with h'
      injection h' with h1 h2
      subst h2
      simp only [List.length_cons]
      omega
    · exact Option.noConfusion h

/-- A Python-rule match consumes at least the fence and the newline. -/
theorem pyStep_shrink : ∀ l out rest, pyStep l = some (out, rest) → rest.length < l.length := by
  intro l out rest h
  match l with
  | [] => exact Option.noConfusion h
  | [a] => exact Option.noConfusion h
  | [a, b] => exact Option.noConfusion h
  | [a, b, c] => exact Option.noConfusion h
  | a :: b :: c :: d :: t =>
    simp only [pyStep] at h
    split at h
    · injection h with h'
      injection h' with h1 h2
      subst h2
      simp only [List.length_cons]
      omega
    · exact Option.noConfusion h

/-- The opening-fence pattern, as explicit characters. -/
theorem fenceData : "```\n".data = [btick, btick, btick, '\n'] := by decide

/-- The tagged JavaScript fence, as explicit characters. -/
theorem jsOpenData : "```javascript\n".data =
    [btick, btick, btick, 'j', 'a', 'v', 'a', 's', 'c', 'r', 'i', 'p', 't', '\n'] := by decide

/-- The tagged Python fence, as explicit characters. -/
theorem pyOpenData : "```python\n".data =
    [btick, btick, btick, 'p', 'y', 't', 'h', 'o', 'n', '\n'] := by decide

/-- An untagged fence whose first line starts with a JavaScript keyword
matches the JavaScript rule. -/
theorem jsStep_tag (rest : List Char) (h : startsWithAny jsKeywords rest = true) :
    jsStep (btick :: btick :: btick :: '\n' :: rest) =
      some ("```javascript\n".data, rest) := by
  simp [jsStep, h]

/-- An untagged fence whose first line starts with no JavaScript keyword
does not match the JavaScript rule. -/
theorem jsStep_nokw (rest : List Char) (h : startsWithAny jsKeywords rest = false) :
    jsStep (btick :: btick :: btick :: '\n' :: rest) = none := by
  simp [jsStep, h]

/-- An untagged fence whose first line starts with a Python keyword
followed by whitespace matches the Python rule. -/
theorem pyStep_tag (rest : List Char) (h : startsWithPyKwWs rest = true) :
    pyStep (btick :: btick :: btick :: '\n' :: rest) =
      some ("```python\n".data, rest) := by
  simp [pyStep, h]

/-- No JavaScript keyword contains a backtick. -/
theorem jsKeywords_no_btick : ∀ kw ∈ jsKeywords, ∀ c ∈ kw, c ≠ btick := by decide

/-- The JavaScript pass copies a backtick-free run verbatim. -/
theorem jsPass_copy (p t : List Char) (hp : ∀ c ∈ p, c ≠ btick) :
    jsPass (p ++ t) = p ++ jsPass t :=
  replaceScan_append_none jsStep p t (fun c hc cs => jsStep_none_ne c cs (hp c hc))

/-- The Python pass copies a backtick-free run verbatim. -/
theorem pyPass_copy (p t : List Char) (hp : ∀ c ∈ p, c ≠ btick) :
    pyPass (p ++ t) = p ++ pyPass t :=
  replaceScan_append_none pyStep p t (fun c hc cs => pyStep_none_ne c cs (hp c hc))

/-- The JavaScript pass tags a fence whose first line starts with a
JavaScript keyword. -/
theorem jsPass_tag (rest : List Char) (h : startsWithAny jsKeywords rest = true) :
    jsPass ("```\n".data ++ rest) = "```javascript\n".data ++ jsPass rest := by
  rw [fenceData]
  simp only [List.cons_append, List.nil_append]
  exact replaceScan_cons_some jsStep jsStep_shrink _ _ _ _ (jsStep_tag rest h)

/-- The Python pass tags a fence whose first line starts with a Python
keyword followed by whitespace. -/
theorem pyPass_tag (rest : List Char) (h : startsWithPyKwWs rest = true) :
    pyPass ("```\n".data ++ rest) = "```python\n".data ++ pyPass rest := by
  rw [fenceData]
  simp only [List.cons_append, List.nil_append]
  exact replaceScan_cons_some pyStep pyStep_shrink _ _ _ _ (pyStep_tag rest h)

/-- The Python pass never re-tags a fence already tagged `javascript`: the
tag breaks the `` ```\n `` pattern the Python rule requires. -/
theorem pyPass_jsopen (X : List Char) :
    pyPass ("```javascript\n".data ++ X) = "```javascript\n".data ++ pyPass X := by
  rw [jsOpenData]
  simp only [List.cons_append, List.nil_append, pyPass]
  rw [replaceScan_cons_none pyStep _ _ (pyStep_none_no4 _ _ _ _ _ (by decide))]
  rw [replaceScan_cons_none pyStep _ _ (pyStep_none_no4 _ _ _ _ _ (by decide))]
  rw [replaceScan_cons_none pyStep _ _ (pyStep_none_no4 _ _ _ _ _ (by decide))]
  have hp : ∀ c ∈ ['j', 'a', 'v', 'a', 's', 'c', 'r', 'i', 'p', 't', '\n'], c ≠ btick := by
    decide
  have := replaceScan_append_none pyStep ['j', 'a', 'v', 'a', 's', 'c', 'r', 'i', 'p', 't', '\n']
    X (fun c hc cs => pyStep_none_ne c cs (hp c hc))
  simp only [List.cons_append, List.nil_append] at this
  rw [this]

/-- The JavaScript rule does not match a fence followed by a backtick, a
newline and anything (scanning after a fence start advances one character). -/
theorem jsStep_btnl (cs : List Char) : jsStep (btick :: '\n' :: cs) = none := by
  match cs with
  | [] => rfl
  | [a] => rfl
  | a :: b :: t =>
    simp only [jsStep]
    rw [if_neg]
    intro hc
    exact absurd hc.2.1 (by decide)

/-- The JavaScript rule does not match two backticks followed by a newline. -/
theorem jsStep_btbtnl (cs : List Char) : jsStep (btick :: btick :: '\n' :: cs) = none := by
  match cs with
  | [] => rfl
  | a :: t =>
    simp only [jsStep]
    rw [if_neg]
    intro hc
    exact absurd hc.2.2.1 (by decide)

/-- A fence whose first line starts with no JavaScript keyword is copied
unchanged by the JavaScript pass (the scan advances through it one
character at a time without matching). -/
theorem jsPass_fence_nokw (rest : List Char)
    (h : startsWithAny jsKeywords rest = false) :
    jsPass ("```\n".data ++ rest) = "```\n".data ++ jsPass rest := by
  rw [fenceData]
  simp only [List.cons_append, List.nil_append, jsPass]
  rw [replaceScan_cons_none jsStep _ _ (jsStep_nokw rest h)]
  rw [replaceScan_cons_none jsStep _ _ (jsStep_btbtnl rest)]
  rw [replaceScan_cons_none jsStep _ _ (jsStep_btnl rest)]
  rw [replaceScan_cons_none jsStep _ _ (jsStep_none_ne _ _ (by decide))]

/-- No JavaScript keyword starts with `d`, so a first line starting with
`d` never matches the JavaScript rule. -/
theorem startsWithAny_js_d (cs : List Char) :
    startsWithAny jsKeywords ('d' :: cs) = false := by
  have hjs : jsKeywords = [['c', 'l', 'a', 's', 's'], ['f', 'u', 'n', 'c', 't', 'i', 'o', 'n'],
      ['i', 'm', 'p', 'o', 'r', 't'], ['c', 'o', 'n', 's', 't'], ['l', 'e', 't'],
      ['v', 'a', 'r'], ['i', 'f'], ['f', 'o', 'r'], ['w', 'h', 'i', 'l', 'e']] := by decide
  rw [hjs]
  simp [startsWithAny, List.isPrefixOf]

/-- A first line `def ...` starts with the Python keyword `def` followed by
whitespace. -/
theorem startsWithPyKwWs_def (X : List Char) :
    startsWithPyKwWs ('d' :: 'e' :: 'f' :: ' ' :: X) = true := by
  apply List.any_eq_true.mpr
  refine ⟨"def".data, by decide, ?_⟩
  have hd : "def".data = ['d', 'e', 'f'] := by decide
  rw [hd]
  simp [List.isPrefixOf, headIsWs, isWsChar]

/-- A fence whose first line is `def ...` passes the JavaScript rule
untouched and is then tagged by the Python rule. -/
theorem classify_def_general (t : List Char) :
    pyPass (jsPass ("```\ndef ".data ++ t)) =
      "```python\ndef ".data ++ pyPass (jsPass t) := by
  have hsplit : "```\ndef ".data = "```\n".data ++ ['d', 'e', 'f', ' '] := by decide
  rw [hsplit, List.append_assoc]
  have h1 : startsWithAny jsKeywords (['d', 'e', 'f', ' '] ++ t) = false := by
    simpa using startsWithAny_js_d ('e' :: 'f' :: ' ' :: t)
  rw [jsPass_fence_nokw _ h1]
  rw [jsPass_copy ['d', 'e', 'f', ' '] t (by decide)]
  have h2 : startsWithPyKwWs (['d', 'e', 'f', ' '] ++ jsPass t) = true := by
    simpa using startsWithPyKwWs_def (jsPass t)
  rw [pyPass_tag _ h2]
  rw [pyPass_copy ['d', 'e', 'f', ' '] (jsPass t) (by decide)]
  have hpy : "```python\ndef ".data = "```python\n".data ++ ['d', 'e', 'f', ' '] := by decide
  rw [hpy, List.append_assoc]

/-- C1: the classifier applies its two substitutions in a fixed order over
the serialized Markdown: a fenced block whose first line begins with a
JavaScript keyword has its opening fence tagged `javascript`; the Python
rule runs second and only tags a fence not already tagged (a tagged fence
no longer matches `` ```\n ``), with its keyword required to be followed by
whitespace.  Hence a first line beginning with an overlapping keyword
(class/import/if/for/while ∈ jsKeywords) is always tagged `javascript`,
never `python`; a fence starting with `def f():` is tagged `python` and one
starting with `class X {}` is tagged `javascript`. -/
theorem C1_classifier_fixed_order :
    (∀ p : List Char, (∀ c ∈ p, c ≠ btick) → ∀ kw ∈ jsKeywords, ∀ t : List Char,
        pyPass (jsPass (p ++ "```\n".data ++ kw ++ t)) =
          p ++ "```javascript\n".data ++ kw ++ pyPass (jsPass t))
    ∧ (∀ t : List Char,
        pyPass (jsPass ("```\ndef ".data ++ t)) =
          "```python\ndef ".data ++ pyPass (jsPass t))
    ∧ classifyFences "```\ndef f():\n  pass\n```" = "```python\ndef f():\n  pass\n```"
    ∧ classifyFences "```\nclass X \x7b\x7d\n```" =
        "```javascript\nclass X \x7b\x7d\n```" := by
  refine ⟨?_, classify_def_general, by decide, by decide⟩
  intro p hp kw hkw t
  have hkwb : ∀ c ∈ kw, c ≠ btick := jsKeywords_no_btick kw hkw
  have h2 : startsWithAny jsKeywords (kw ++ t) = true := by
    apply List.any_eq_true.mpr
    exact ⟨kw, hkw, List.isPrefixOf_iff_prefix.mpr (List.prefix_append kw t)⟩
  calc pyPass (jsPass (p ++ "```\n".data ++ kw ++ t))
      = pyPass (jsPass (p ++ ("```\n".data ++ (kw ++ t)))) := by
        rw [List.append_assoc, List.append_assoc]
    _ = pyPass (p ++ jsPass ("```\n".data ++ (kw ++ t))) := by rw [jsPass_copy p _ hp]
    _ = pyPass (p ++ ("```javascript\n".data ++ (kw ++ jsPass t))) := by
        rw [jsPass_tag _ h2, jsPass_copy kw t hkwb]
    _ = p ++ pyPass ("```javascript\n".data ++ (kw ++ jsPass t)) := by
        rw [pyPass_copy p _ hp]
    _ = p ++ ("```javascript\n".data ++ pyPass (kw ++ jsPass t)) := by rw [pyPass_jsopen]
    _ = p ++ ("```javascript\n".data ++ (kw ++ pyPass (jsPass t))) := by
        rw [pyPass_copy kw _ hkwb]
    _ = p ++ "```javascript\n".data ++ kw ++ pyPass (jsPass t) := by
        simp [List.append_assoc]

/-- Witness for C1: the overlapping keyword `class` at the start of a
fenced block is tagged `javascript`. -/
theorem C1_witness :
    ((∀ c ∈ ([] : List Char), c ≠ btick) ∧ "class".data ∈ jsKeywords) ∧
      pyPass (jsPass ([] ++ "```\n".data ++ "class".data ++ " X".data)) =
        [] ++ "```javascript\n".data ++ "class".data ++ pyPass (jsPass " X".data) :=
  ⟨⟨by simp, by decide⟩,
    C1_classifier_fixed_order.1 [] (by simp) "class".data (by decide) " X".data⟩

/-- C10: the classifier matches its keywords as raw prefixes without a word
boundary: a fenced block whose first line begins with `classes` (prefix
`class`) or `format` (prefix `for`) is still tagged `javascript`. -/
theorem C10_raw_prefix_keywords :
    classifyFences "```\nclasses = 1\n```" = "```javascript\nclasses = 1\n```"
    ∧ classifyFences "```\nformat(x)\n```" = "```javascript\nformat(x)\n```" :=
  ⟨by decide, by decide⟩

/-! ### The script-stripping sanitization -/

/-- Finding the closer consumes at least one character. -/
theorem afterCloser_shrink : ∀ l r, afterCloser l = some r → r.length < l.length := by
  intro l
  induction l with
  | nil => intro r h; exact Option.noConfusion h
  | cons c cs ih =>
    intro r h
    simp only [afterCloser] at h
    split at h
    · injection h with h'
      subst h'
      simp only [List.length_drop, List.length_cons]
      omega
    · have := ih r h
      simp only [List.length_cons]
      omega

/-- A script-block match consumes at least the opener. -/
theorem scriptStep_shrink :
    ∀ l out rest, scriptStep l = some (out, rest) → rest.length < l.length := by
  intro l out rest h
  simp only [scriptStep] at h
  split at h
  · split at h
    · rename_i r hr
      injection h with h'
      injection h' with h1 h2
      subst h2
      have hlt := afterCloser_shrink _ _ hr
      simp only [List.length_drop] at hlt
      omega
    · exact Option.noConfusion h
  · exact Option.noConfusion h

/-- A position not starting with `<` never matches the script regex. -/
theorem scriptStep_none_ne (c : Char) (cs : List Char) (h : c ≠ '<') :
    scriptStep (c :: cs) = none := by
  have hb : (c == '<') = false := beq_eq_false_iff_ne.mpr h
  simp [scriptStep, ciStarts, scriptOpenP, hb]

/-- The sanitization step leaves any `<`-free input unchanged. -/
theorem stripScripts_id_no_lt (l : List Char) (h : ∀ c ∈ l, c ≠ '<') :
    stripScripts l = l := by
  have := replaceScan_append_none scriptStep l []
    (fun c hc cs => scriptStep_none_ne c cs (h c hc))
  have h0 : replaceScan scriptStep ([] : List Char) = [] := rfl
  simpa [stripScripts, h0] using this

/-- Scanning a `<`-free run followed by the closer finds exactly that
closer, leaving nothing behind. -/
theorem afterCloser_append (p : List Char) (hp : ∀ c ∈ p, c ≠ '<') :
    afterCloser (p ++ "</script>".data) = some [] := by
  induction p with
  | nil =>
    simp only [List.nil_append]
    decide
  | cons c p ih =>
    have hb : (c == '<') = false := beq_eq_false_iff_ne.mpr (hp c (by simp))
    simp only [List.cons_append, afterCloser]
    rw [if_neg]
    · exact ih (fun d hd => hp d (by simp [hd]))
    · simp [ciStarts, scriptCloseP, hb]

/-- A well-formed script block — opener, `<`-free body, closer — matches
the script regex, and the whole block is consumed. -/
theorem scriptStep_block (body : List Char) (hb : ∀ c ∈ body, c ≠ '<') :
    scriptStep ('<' :: 's' :: 'c' :: 'r' :: 'i' :: 'p' :: 't' :: '>' ::
      (body ++ "</script>".data)) = some ([], []) := by
  have hcl : afterCloser ('>' :: (body ++ "</script>".data)) = some [] := by
    have : ∀ c ∈ '>' :: body, c ≠ '<' := by
      intro c hc
      rcases List.mem_cons.mp hc with h | h
      · subst h; decide
      · exact hb c h
    simpa using afterCloser_append ('>' :: body) this
  simp only [scriptStep, List.drop, hcl]
  simp [ciStarts, scriptOpenP, boundaryAfter, isWordChar]

/-- C2 (amended): the sanitization step removes every well-formed
`<script>...</script>` block before conversion, but `style` elements are
not removed — their text content survives sanitization (and, per the
repository's own test expectations, reaches the Markdown output). -/
theorem C2_sanitizer_scripts_not_styles :
    (∀ body : List Char, (∀ c ∈ body, c ≠ '<') →
        stripScripts ("<script>".data ++ body ++ "</script>".data) = [])
    ∧ stripScriptsS "<style>color:red</style>" = "<style>color:red</style>" := by
  constructor
  · intro body hb
    have hop : "<script>".data = ['<', 's', 'c', 'r', 'i', 'p', 't', '>'] := by decide
    rw [List.append_assoc, hop]
    simp only [List.cons_append, List.nil_append, stripScripts]
    rw [replaceScan_cons_some scriptStep scriptStep_shrink _ _ _ _ (scriptStep_block body hb)]
    rfl
  · decide

/-- Counterexample for C2 as stated: sanitization does not remove `style`
nodes — the text content of a `style` element is still present, verbatim,
after the sanitization step of `htmlToMarkdown`. -/
theorem C2_counterexample :
    containsSub "color:red".data (stripScriptsS "<style>color:red</style>").data = true := by
  decide

/-- Witness for the amended C2: a concrete script block is removed. -/
theorem C2_witness :
    (∀ c ∈ "var s=1;".data, c ≠ '<') ∧
      stripScripts ("<script>".data ++ "var s=1;".data ++ "</script>".data) = [] :=
  ⟨by decide, C2_sanitizer_scripts_not_styles.1 "var s=1;".data (by decide)⟩

/-- C9: `htmlToMarkdown` is total on the empty input — it returns the
empty string — and plain text containing no HTML tag delimiter passes
through unchanged (the script regex cannot match without a `<`, and a
tag-free string parses to a single text node, serialized verbatim). -/
theorem C9_total_on_plain_text :
    htmlToMarkdownPlain "" = ""
    ∧ ∀ s : String, (∀ c ∈ s.data, c ≠ '<') → htmlToMarkdownPlain s = s := by
  constructor
  · rfl
  · intro s hs
    show serializeNode (parsePlain (stripScriptsS s)) = s
    simp only [stripScriptsS, parsePlain, serializeNode]
    rw [stripScripts_id_no_lt s.data hs]

/-- Witness for C9: the plain-text sentence of the repository's own test
(src/data_processing.test.ts:48-51) converts to itself. -/
theorem C9_witness :
    (∀ c ∈ ("Plain text without any HTML" : String).data, c ≠ '<') ∧
      htmlToMarkdownPlain "Plain text without any HTML" = "Plain text without any HTML" :=
  ⟨by decide, C9_total_on_plain_text.2 _ (by decide)⟩

/-! ### The Markdown serializer -/

/-- C3: serializing a heading produces setext output — the heading text
followed, on the next line, by a full underline whose length equals the
visible text length: `=` characters for h1, `-` characters for h2; in
particular `<h1>Title</h1>` yields `Title\n=====` with five equals signs. -/
theorem C3_heading_setext :
    (∀ s : String, serializeNode (DocumentNode.element "h1" []
        (NodeList.cons (DocumentNode.text s) NodeList.nil)) =
      s ++ "\n" ++ underline s.length '=')
    ∧ (∀ s : String, serializeNode (DocumentNode.element "h2" []
        (NodeList.cons (DocumentNode.text s) NodeList.nil)) =
      s ++ "\n" ++ underline s.length '-')
    ∧ serializeNode (DocumentNode.element "h1" []
        (NodeList.cons (DocumentNode.text "Title") NodeList.nil)) = "Title\n=====" :=
  ⟨fun _ => rfl, fun _ => rfl, by decide⟩

/-- C8: emphasis uses fixed delimiters — `<em>x</em>` serializes to `_x_`,
`<strong>x</strong>` to `**x**`, and the nested
`<strong><em>x</em></strong>` to `**_x_**`. -/
theorem C8_emphasis_delimiters :
    (∀ s : String, serializeNode (DocumentNode.element "em" []
        (NodeList.cons (DocumentNode.text s) NodeList.nil)) = "_" ++ s ++ "_")
    ∧ (∀ s : String, serializeNode (DocumentNode.element "strong" []
        (NodeList.cons (DocumentNode.text s) NodeList.nil)) = "**" ++ s ++ "**")
    ∧ (∀ s : String, serializeNode (DocumentNode.element "strong" []
        (NodeList.cons (DocumentNode.element "em" []
          (NodeList.cons (DocumentNode.text s) NodeList.nil)) NodeList.nil)) =
      "**" ++ ("_" ++ s ++ "_") ++ "**")
    ∧ serializeNode (DocumentNode.element "strong" []
        (NodeList.cons (DocumentNode.element "em" []
          (NodeList.cons (DocumentNode.text "x") NodeList.nil)) NodeList.nil)) = "**_x_**" :=
  ⟨fun _ => rfl, fun _ => rfl, fun _ => rfl, by decide⟩

/-- C4: the conversion is deterministic — the embedded pipeline is a pure
function of its input, with no hidden mutable state between calls: the
repository constructs a fresh `TurndownService` from constant options on
every call of `htmlToMarkdown` (src/data_processing.ts:13-16) and keeps no
module-level state, so repeated calls on the same input, and calls on equal
inputs, produce byte-identical output. -/
theorem C4_conversion_deterministic :
    (∀ s : String, stripScriptsS s = stripScriptsS s ∧ classifyFences s = classifyFences s)
    ∧ ∀ t₁ t₂ : DocumentNode, t₁ = t₂ → serializeNode t₁ = serializeNode t₂ :=
  ⟨fun _ => ⟨rfl, rfl⟩, fun _ _ h => h ▸ rfl⟩

/-- Witness for C4: two runs of the serializer on the same concrete tree
agree. -/
theorem C4_witness :
    DocumentNode.text "a" = DocumentNode.text "a" ∧
      serializeNode (DocumentNode.text "a") = serializeNode (DocumentNode.text "a") :=
  ⟨rfl, C4_conversion_deterministic.2 _ _ rfl⟩

/-- Serializing a sequence of block-producing nodes joins their outputs
with a blank line. -/
theorem serializeSeq_blocks {α : Type} (f : α → DocumentNode) (g : α → String)
    (hb : ∀ a, isBlockNode (f a) = true) (hs : ∀ a, serializeNode (f a) = g a) :
    ∀ xs : List α, serializeSeq (toNodeList (xs.map f)) = joinSep "\n\n" (xs.map g) := by
  intro xs
  induction xs with
  | nil => rfl
  | cons a xs ih =>
    cases xs with
    | nil => simp [toNodeList, serializeSeq, joinSep, hs]
    | cons b ys =>
      simp only [List.map_cons, toNodeList] at ih ⊢
      simp only [serializeSeq, joinSep]
      rw [ih, hs a]
      simp [seqSep, hb]

/-- A `td` cell serializes to its text content. -/
theorem serializeNode_mkRow (r : List String) :
    serializeNode (mkRow r) = joinSep "\n\n" r := by
  show serializeSeq (toNodeList (r.map mkCell)) = _
  rw [serializeSeq_blocks mkCell id (fun _ => rfl) (fun _ => rfl) r]
  simp

/-- Joining a concatenation of two nonempty fragment lists splits around
the separator. -/
theorem joinSep_append (sep : String) (a b : List String) (ha : a ≠ []) (hb : b ≠ []) :
    joinSep sep (a ++ b) = joinSep sep a ++ sep ++ joinSep sep b := by
  induction a with
  | nil => exact absurd rfl ha
  | cons x a ih =>
    cases a with
    | nil =>
      cases b with
      | nil => exact absurd rfl hb
      | cons y bs => simp [joinSep]
    | cons z as =>
      have ih' := ih (by simp)
      simp only [List.cons_append] at ih' ⊢
      simp only [joinSep]
      rw [ih']
      simp [String.append_assoc]

/-- Joining the per-row joins of nonempty rows equals joining the
flattened cell list. -/
theorem joinSep_flatten (sep : String) :
    ∀ rows : List (List String), (∀ r ∈ rows, r ≠ []) →
      joinSep sep (rows.map (joinSep sep)) = joinSep sep rows.flatten := by
  intro rows h
  induction rows with
  | nil => rfl
  | cons r rest ih =>
    cases rest with
    | nil => simp [joinSep]
    | cons r2 rest2 =>
      have hr : r ≠ [] := h r (by simp)
      have hflat : (r2 :: rest2).flatten ≠ [] := by
        have hr2 : r2 ≠ [] := h r2 (by simp)
        simp only [List.flatten_cons, ne_eq, List.append_eq_nil]
        intro hc
        exact hr2 hc.1
      have ih' := ih (fun r' hr' => h r' (by simp [hr']))
      rw [List.map_cons, List.map_cons]
      rw [show joinSep sep (joinSep sep r :: joinSep sep r2 :: List.map (joinSep sep) rest2) =
        joinSep sep r ++ sep ++ joinSep sep (joinSep sep r2 :: List.map (joinSep sep) rest2)
        from rfl]
      rw [← List.map_cons (joinSep sep) r2 rest2, ih']
      rw [show (r :: r2 :: rest2).flatten = r ++ (r2 :: rest2).flatten from rfl]
      rw [joinSep_append sep r (r2 :: rest2).flatten hr hflat]

/-- Every character of a joined fragment list comes from the separator or
from one of the fragments. -/
theorem joinSep_mem (sep : String) (xs : List String) (c : Char)
    (hc : c ∈ (joinSep sep xs).data) : c ∈ sep.data ∨ ∃ x ∈ xs, c ∈ x.data := by
  induction xs with
  | nil => simp [joinSep] at hc
  | cons x xs ih =>
    cases xs with
    | nil => exact Or.inr ⟨x, by simp, hc⟩
    | cons y ys =>
      simp only [joinSep, String.data_append, List.mem_append] at hc
      rcases hc with (h1 | h2) | h3
      · exact Or.inr ⟨x, by simp, h1⟩
      · exact Or.inl h2
      · rcases ih h3 with hs | ⟨w, hw, hcw⟩
        · exact Or.inl hs
        · exact Or.inr ⟨w, by simp [List.mem_cons.mp hw], hcw⟩

/-- C7: tables are flattened — a table of plain-text cells serializes to
the cells' text contents, each on its own line as its own block, with a
blank line separating consecutive cells (in particular consecutive rows),
and no pipe/grid Markdown table syntax is produced: the output contains no
`|` unless some cell text does. -/
theorem C7_table_flattened :
    ∀ rows : List (List String), (∀ r ∈ rows, r ≠ []) →
      serializeNode (mkTable rows) = joinSep "\n\n" rows.flatten
      ∧ ((∀ cell ∈ rows.flatten, '|' ∉ cell.data) →
          '|' ∉ (serializeNode (mkTable rows)).data) := by
  intro rows h
  have heq : serializeNode (mkTable rows) = joinSep "\n\n" rows.flatten := by
    show serializeSeq (toNodeList (rows.map mkRow)) = _
    rw [serializeSeq_blocks mkRow (joinSep "\n\n") (fun _ => rfl) serializeNode_mkRow rows]
    exact joinSep_flatten "\n\n" rows h
  refine ⟨heq, ?_⟩
  intro hpipe hmem
  rw [heq] at hmem
  rcases joinSep_mem _ _ _ hmem with hsep | ⟨x, hx, hcx⟩
  · simp at hsep
  · exact hpipe x hx hcx

/-- Witness for C7: the table of the repository's own test
(src/data_processing.test.ts:89-140) flattens to four blank-line-separated
cell lines. -/
theorem C7_witness :
    (∀ r ∈ [["Header 1", "Header 2"], ["Cell 1", "Cell 2"]], r ≠ ([] : List String)) ∧
      (serializeNode (mkTable [["Header 1", "Header 2"], ["Cell 1", "Cell 2"]]) =
          joinSep "\n\n" ([["Header 1", "Header 2"], ["Cell 1", "Cell 2"]] :
            List (List String)).flatten
        ∧ ((∀ cell ∈ ([["Header 1", "Header 2"], ["Cell 1", "Cell 2"]] :
              List (List String)).flatten, '|' ∉ cell.data) →
            '|' ∉ (serializeNode
              (mkTable [["Header 1", "Header 2"], ["Cell 1", "Cell 2"]])).data)) :=
  ⟨by decide, C7_table_flattened _ (by decide)⟩

/-! ### The extraction-failure path -/

/-- C5: when content extraction finds no usable article content — the
Readability result is `null`, or its `content` is empty (falsy) — the
conversion fails with the descriptive error
`Scraping error: Failed to parse article content` rather than returning
any Markdown; the tool handler returns that message with its error flag
set, and the scrape is attempted exactly once (no automatic retry). -/
theorem C5_extraction_error_terminal :
    ∀ (convert : String → String) (article : Option String),
      article = none ∨ article = some "" →
      runScrapeTool convert article =
        (("Error: Scraping error: Failed to parse article content", true), 1) := by
  intro convert article h
  rcases h with h | h <;> subst h <;> rfl

/-- Witness for C5: a missing article yields the terminal error response. -/
theorem C5_witness :
    ((none : Option String) = none ∨ (none : Option String) = some "") ∧
      runScrapeTool id none =
        (("Error: Scraping error: Failed to parse article content", true), 1) :=
  ⟨Or.inl rfl, C5_extraction_error_terminal id none (Or.inl rfl)⟩

/-! ### The normalizer -/

/-- Collapsing newline runs never changes the first character. -/
theorem head_collapse (l : List Char) : (collapseNl l).head? = l.head? := by
  induction l with
  | nil => rfl
  | cons c cs ih =>
    simp only [collapseNl]
    split
    · rw [ih]
      simp_all
    · simp

/-- Collapsing is the identity on strings with no triple newline. -/
theorem collapse_eq_self (l : List Char) (h : ¬ tripleNl <:+: l) : collapseNl l = l := by
  induction l with
  | nil => rfl
  | cons c cs ih =>
    simp only [collapseNl]
    split
    · rename_i tail
      exact absurd (List.IsPrefix.isInfix ⟨tail, rfl⟩) h
    · rw [ih (fun hin => h (List.infix_cons hin))]

/-- If the collapsed string starts with two newlines, so does the input. -/
theorem prefix2_collapse : ∀ cs : List Char, ['\n', '\n'] <+: collapseNl cs →
    ['\n', '\n'] <+: cs := by
  intro cs h
  match cs with
  | [] => simp [collapseNl] at h
  | c :: cs' =>
    simp only [collapseNl] at h
    split at h
    · rename_i tail
      exact ⟨'\n' :: tail, rfl⟩
    · rcases List.cons_prefix_cons.mp h with ⟨hc, h1⟩
      rcases h1 with ⟨w, hw⟩
      cases cs' with
      | nil =>
        rw [show collapseNl [] = [] from rfl] at hw
        exact absurd hw (by simp)
      | cons d ds =>
        have hd : d = '\n' := by
          have hh := head_collapse (d :: ds)
          rw [← hw] at hh
          simpa using hh.symm
        subst hd
        subst hc
        exact ⟨ds, rfl⟩

/-- The collapsed string contains no triple newline. -/
theorem collapse_noTriple (l : List Char) : ¬ tripleNl <:+: collapseNl l := by
  induction l with
  | nil => simp [collapseNl, tripleNl]
  | cons c cs ih =>
    simp only [collapseNl]
    split
    · exact ih
    · rename_i hne
      intro hin
      rcases List.infix_cons_iff.mp hin with hpre | htail
      · rcases List.cons_prefix_cons.mp hpre with ⟨hc, hpre2⟩
        have h2 : ['\n', '\n'] <+: cs := prefix2_collapse cs hpre2
        rcases h2 with ⟨x, hx⟩
        exact hne x hc.symm hx.symm
      · exact ih htail

/-- The first character surviving `trimWs` is not whitespace, so trimming
again from the left changes nothing. -/
theorem dropWhile_trimWs_self (l : List Char) :
    List.dropWhile isWsChar (trimWs l) = trimWs l := by
  show List.dropWhile isWsChar (List.rdropWhile isWsChar (List.dropWhile isWsChar l)) = _
  rcases hz : List.rdropWhile isWsChar (List.dropWhile isWsChar l) with _ | ⟨a, t⟩
  · simp [trimWs, hz]
  · have hpre := List.rdropWhile_prefix isWsChar (List.dropWhile isWsChar l)
    rw [hz] at hpre
    rcases hpre with ⟨q, hq⟩
    have hyne : List.dropWhile isWsChar l ≠ [] := by
      intro h0
      rw [h0] at hq
      exact absurd hq (by simp)
    have hhead : (List.dropWhile isWsChar l).head? = some a := by
      rw [← hq]
      rfl
    have hnp : isWsChar ((List.dropWhile isWsChar l).head hyne) = false :=
      List.head_dropWhile_not isWsChar l hyne
    rw [List.head?_eq_head hyne] at hhead
    injection hhead with hha
    rw [hha] at hnp
    rw [trimWs, hz, List.dropWhile_cons, if_neg (by simp [hnp])]

/-- Trimming is idempotent. -/
theorem trimWs_idem (l : List Char) : trimWs (trimWs l) = trimWs l := by
  show List.rdropWhile isWsChar (List.dropWhile isWsChar (trimWs l)) = trimWs l
  rw [dropWhile_trimWs_self]
  show List.rdropWhile isWsChar (List.rdropWhile isWsChar (List.dropWhile isWsChar l)) = _
  rw [List.rdropWhile_idempotent]
  rfl

/-- The trimmed string is an infix of the original. -/
theorem trimWs_substring (l : List Char) : trimWs l <:+: l := by
  have h1 : trimWs l <+: List.dropWhile isWsChar l := List.rdropWhile_prefix _ _
  have h2 : List.dropWhile isWsChar l <:+ l := List.dropWhile_suffix _
  exact h1.isInfix.trans h2.isInfix

/-- C6: the Normalizer collapses every run of three or more consecutive
newlines down to exactly two — its output never contains three consecutive
newlines — and trims leading/trailing whitespace, and it is idempotent:
normalizing an already-normalized string changes nothing. -/
theorem C6_normalizer_idempotent :
    (∀ s : String, normalizeMdS (normalizeMdS s) = normalizeMdS s)
    ∧ ∀ s : String, ¬ tripleNl <:+: (normalizeMdS s).data := by
  have keynt : ∀ l : List Char, ¬ tripleNl <:+: normalizeMd l := fun l hin =>
    collapse_noTriple l (hin.trans (trimWs_substring (collapseNl l)))
  have key : ∀ l : List Char, normalizeMd (normalizeMd l) = normalizeMd l := by
    intro l
    show trimWs (collapseNl (trimWs (collapseNl l))) = trimWs (collapseNl l)
    have hnt : ¬ tripleNl <:+: trimWs (collapseNl l) := fun hin =>
      collapse_noTriple l (hin.trans (trimWs_substring (collapseNl l)))
    rw [collapse_eq_self _ hnt, trimWs_idem]
  constructor
  · intro s
    show String.mk (normalizeMd (String.mk (normalizeMd s.data)).data) = _
    rw [show (String.mk (normalizeMd s.data)).data = normalizeMd s.data from rfl]
    rw [key]
    rfl
  · intro s
    exact keynt s.data
